import Mathlib

/-!
# Verification of the neurosymbolic-learning serialization and production layer

Shallow embedding of `neurosym/programs/s_expression_render.py` and
`neurosym/dsl/production.py`, together with spec-modelled components
(the `SExpression` data class, the external s-expression tokenizer/parser
`s_expression_parser`, and the bounded A* search strategy), and proofs of
the specification claims about them.
-/

namespace NeuroSym

/-- Modelled from the spec: the `SExpression` data class
(`neurosym/programs/s_expression.py`, not included in the sources): an
immutable tree of a `symbol` string plus an ordered, possibly empty tuple of
child S-expressions, with structural equality. -/
inductive SExpression where
  | mk (symbol : String) (children : List SExpression)

/-- A Python value that `from_pair` can return: either a genuine
`SExpression` node (whose children are again such values) or a plain Python
string, since `from_pair` returns the bare token unchanged when none of the
leaf conditions apply. -/
inductive PyObj where
  | pystr (s : String)
  | node (symbol : String) (children : List PyObj)

mutual

/-- Decidable structural equality on Python values (Python `==` on the
`SExpression` dataclass and on strings is structural). -/
def PyObj.decEq : (a b : PyObj) → Decidable (a = b)
  | .pystr s, .pystr t =>
    match String.decEq s t with
    | isTrue h => isTrue (by rw [h])
    | isFalse h => isFalse (by intro hh; injection hh; contradiction)
  | .pystr _, .node _ _ => isFalse nofun
  | .node _ _, .pystr _ => isFalse nofun
  | .node s cs, .node t ds =>
    match String.decEq s t, PyObj.decEqList cs ds with
    | isTrue h1, isTrue h2 => isTrue (by rw [h1, h2])
    | isFalse h1, _ => isFalse (by intro hh; injection hh; contradiction)
    | isTrue _, isFalse h2 => isFalse (by intro hh; injection hh; contradiction)

/-- Decidable structural equality on lists of Python values. -/
def PyObj.decEqList : (a b : List PyObj) → Decidable (a = b)
  | [], [] => isTrue rfl
  | [], _ :: _ => isFalse nofun
  | _ :: _, [] => isFalse nofun
  | a :: as, b :: bs =>
    match PyObj.decEq a b, PyObj.decEqList as bs with
    | isTrue h1, isTrue h2 => isTrue (by rw [h1, h2])
    | isFalse h1, _ => isFalse (by intro hh; injection hh; contradiction)
    | isTrue _, isFalse h2 => isFalse (by intro hh; injection hh; contradiction)

end

instance : DecidableEq PyObj := PyObj.decEq

instance {ε α : Type} [DecidableEq ε] [DecidableEq α] :
    DecidableEq (Except ε α) := fun a b =>
  match a, b with
  | .ok x, .ok y =>
    match decEq x y with
    | isTrue h => isTrue (by rw [h])
    | isFalse h => isFalse (by intro hh; injection hh; contradiction)
  | .error x, .error y =>
    match decEq x y with
    | isTrue h => isTrue (by rw [h])
    | isFalse h => isFalse (by intro hh; injection hh; contradiction)
  | .ok _, .error _ => isFalse nofun
  | .error _, .ok _ => isFalse nofun

mutual

/-- The embedding of a genuine `SExpression` into the Python value universe. -/
def toPyObj : SExpression → PyObj
  | .mk s cs => .node s (toPyObjList cs)

/-- Pointwise `toPyObj` on a list of children. -/
def toPyObjList : List SExpression → List PyObj
  | [] => []
  | c :: cs => toPyObj c :: toPyObjList cs

end

example : toPyObj (.mk "f" [.mk "x" []]) = .node "f" [.node "x" []] := rfl

/-- Modelled from the spec: the value universe of the external
`s_expression_parser` library: a `Pair` cons cell, the distinguished `nil`
terminator, or a bare string token. -/
inductive PairVal where
  | atom (s : String)
  | nil
  | cons (car cdr : PairVal)
deriving DecidableEq

/-- Python's `s.startswith(p)` on strings, character-level prefix test. -/
def strHasPrefix (s p : String) : Bool :=
  p.data.isPrefixOf s.data

/-- Python's `s[n:]` on strings: drop the first `n` characters. -/
def strDrop (s : String) (n : Nat) : String :=
  ⟨s.data.drop n⟩

/-- `[e1, ..., en]` as the cons chain `Pair(e1, Pair(..., Pair(en, nil)))`,
the loop `for element in reversed(elements): result = Pair(element, result)`
of `to_pair`. -/
def listToPair : List PairVal → PairVal
  | [] => .nil
  | x :: xs => .cons x (listToPair xs)

mutual

/-- `to_pair` from `s_expression_render.py`: convert an `SExpression` to a
`Pair`.  In `for_stitch` mode a zero-child node becomes the bare token
`"leaf-" ++ symbol`, unless the symbol starts with `"$"`, in which case it is
passed through unprefixed; otherwise the node becomes the proper list
`(symbol child1 ... childn)`.  The `__to_pair__` capability probe of the
source only fires for foreign values carrying that hook; plain
`SExpression`s, the subject of the claims, take the path modelled here. -/
def to_pair (s_exp : SExpression) (for_stitch : Bool) : PairVal :=
  match s_exp with
  | .mk symbol children =>
    if for_stitch && children.isEmpty then
      if strHasPrefix symbol "$" then .atom symbol
      else .atom ("leaf-" ++ symbol)
    else
      listToPair (.atom symbol :: to_pair_children children for_stitch)

/-- `to_pair` mapped over the children list. -/
def to_pair_children (children : List SExpression) (for_stitch : Bool) :
    List PairVal :=
  match children with
  | [] => []
  | c :: cs => to_pair c for_stitch :: to_pair_children cs for_stitch

end

mutual

/-- `from_pair` from `s_expression_render.py`: convert a `Pair` back to a
Python value.  A bare token is stripped of a `"leaf-"` prefix or passed
through when it starts with `"$"` (in `for_stitch` mode), turned into a
zero-child node when listed in `should_not_be_leaf`, and otherwise returned
as the raw string.  A cons chain must start with a string head (the
`assert isinstance(car, str)`); `nil` fails the `assert isinstance(pair,
Pair)`.  Assertion failures are modelled as `Except.error`. -/
def from_pair (pair : PairVal) (should_not_be_leaf : List String)
    (for_stitch : Bool) : Except String PyObj :=
  match pair with
  | .atom s =>
    if for_stitch && strHasPrefix s "leaf-" then
      .ok (.node (strDrop s 5) [])
    else if for_stitch && strHasPrefix s "$" then
      .ok (.node s [])
    else if s ∈ should_not_be_leaf then
      .ok (.node s [])
    else
      .ok (.pystr s)
  | .nil => .error "Expected pair"
  | .cons car cdr =>
    match car with
    | .atom head =>
      match from_pair_tail cdr should_not_be_leaf for_stitch with
      | .error e => .error e
      | .ok tail => .ok (.node head tail)
    | _ => .error "Expected string"

/-- The `while pair is not nil` loop of `from_pair`, converting each element
after the head recursively; a non-`nil`, non-cons tail is the improper-list
case, which the Python loop cannot handle. -/
def from_pair_tail (pair : PairVal) (should_not_be_leaf : List String)
    (for_stitch : Bool) : Except String (List PyObj) :=
  match pair with
  | .nil => .ok []
  | .cons car cdr =>
    match from_pair car should_not_be_leaf for_stitch with
    | .error e => .error e
    | .ok x =>
      match from_pair_tail cdr should_not_be_leaf for_stitch with
      | .error e => .error e
      | .ok xs => .ok (x :: xs)
  | .atom _ => .error "improper list"

end

/-- Modelled from the spec: the token alphabet of the external s-expression
parser — parentheses and whitespace-delimited bare tokens (spec §6). -/
inductive Token where
  | lparen
  | rparen
  | atom (s : String)
deriving DecidableEq

/-- A character that can occur inside a bare token: anything except
parentheses and whitespace. -/
def atomChar (c : Char) : Bool :=
  !(c = '(' || c = ')' || c.isWhitespace)

/-- Flush a pending (reversed) token accumulator in front of a token list. -/
def flushTok (cur : List Char) (ts : List Token) : List Token :=
  match cur with
  | [] => ts
  | _ :: _ => .atom ⟨cur.reverse⟩ :: ts

/-- Modelled from the spec: the tokenizer of the external s-expression
parser, splitting on parentheses and whitespace (spec §6); `cur` is the
reversed run of token characters read so far. -/
def tokenizeAux : List Char → List Char → List Token
  | [], cur => flushTok cur []
  | c :: cs, cur =>
    if c = '(' then flushTok cur (.lparen :: tokenizeAux cs [])
    else if c = ')' then flushTok cur (.rparen :: tokenizeAux cs [])
    else if c.isWhitespace then flushTok cur (tokenizeAux cs [])
    else tokenizeAux cs (c :: cur)

/-- Tokenize a string. -/
def tokenize (s : String) : List Token :=
  tokenizeAux s.data []

/-- Modelled from the spec: grouping of a token stream into the list of
top-level expressions, as the external `parse` does.  `stack` holds the
(reversed) partial element lists of the enclosing open parentheses, `acc`
the reversed elements of the current level.  Unbalanced input is an error. -/
def parseTokens : List Token → List (List PairVal) → List PairVal →
    Except String (List PairVal)
  | [], [], acc => .ok acc.reverse
  | [], _ :: _, _ => .error "unbalanced parentheses"
  | .atom s :: ts, stack, acc => parseTokens ts stack (.atom s :: acc)
  | .lparen :: ts, stack, acc => parseTokens ts (acc :: stack) []
  | .rparen :: _, [], _ => .error "unexpected close paren"
  | .rparen :: ts, top :: stack, acc =>
    parseTokens ts stack (listToPair acc.reverse :: top)

/-- Modelled from the spec: `parse(s, ParserConfig((), dots_are_cons=False))`
of the external library — the list of top-level expressions of `s`. -/
def parsePairs (s : String) : Except String (List PairVal) :=
  parseTokens (tokenize s) [] []

mutual

/-- Modelled from the spec: the external `Renderer(columns=inf).render`,
printing an atom as itself and a cons chain as a parenthesized
space-separated list. -/
def renderPair : PairVal → String
  | .atom s => s
  | .nil => "()"
  | .cons a d => "(" ++ renderPair a ++ renderTail d ++ ")"

/-- Rendering of the elements after the head of a cons chain. -/
def renderTail : PairVal → String
  | .nil => ""
  | .atom s => " . " ++ s
  | .cons a d => " " ++ renderPair a ++ renderTail d

end

/-- `render_s_expression` from `s_expression_render.py`. -/
def render_s_expression (s_exp : SExpression) (for_stitch : Bool := false) :
    String :=
  renderPair (to_pair s_exp for_stitch)

/-- `parse_s_expression` from `s_expression_render.py`: parse the string into
its top-level expressions, fail unless there is exactly one, and convert it
with `from_pair`. -/
def parse_s_expression (s : String) (should_not_be_leaf : List String := [])
    (for_stitch : Bool := false) : Except String PyObj :=
  match parsePairs s with
  | .error e => .error e
  | .ok pairs =>
    match pairs with
    | [pair] => from_pair pair should_not_be_leaf for_stitch
    | _ => .error "Expected one expression"

mutual

/-- `symbols_for_program` from `s_expression_render.py`: the root's symbol
followed by the concatenated symbol lists of the children. -/
def symbols_for_program (s : SExpression) : List String :=
  match s with
  | .mk symbol children => symbol :: symbols_for_program_children children

/-- `symbols_for_program` concatenated over a children list. -/
def symbols_for_program_children (children : List SExpression) : List String :=
  match children with
  | [] => []
  | c :: cs => symbols_for_program c ++ symbols_for_program_children cs

end

example : render_s_expression (.mk "f" [.mk "x" [], .mk "g" [.mk "y" []]]) false
    = "(f (x) (g (y)))" := rfl

example : render_s_expression (.mk "f" [.mk "x" []]) true = "(f leaf-x)" := rfl

example : render_s_expression (.mk "x" []) true = "leaf-x" := rfl

example : render_s_expression (.mk "$3" []) true = "$3" := rfl

example : parse_s_expression "(f (x))" [] false
    = .ok (.node "f" [.node "x" []]) := rfl

example : parse_s_expression "f" [] false = .ok (.pystr "f") := rfl

example : parse_s_expression "f" ["f"] false = .ok (.node "f" []) := by decide

example : parse_s_expression "leaf-x" [] true = .ok (.node "x" []) := by decide

example : parse_s_expression "(f leaf-x)" [] true
    = .ok (.node "f" [.node "x" []]) := by decide

example : parse_s_expression "" [] false = .error "Expected one expression" := rfl

example : parse_s_expression "a b" [] false
    = .error "Expected one expression" := rfl

example : parse_s_expression "((f) x)" [] false = .error "Expected string" := rfl

example : parse_s_expression "(" [] false = .error "unbalanced parentheses" := rfl

example : parse_s_expression "(f ())" [] false = .error "Expected pair" := rfl

/-! ## Productions (`neurosym/dsl/production.py`)

`V` is the opaque universe of pytorch values; a Python `dict` of named
parameters is modelled as an association list (Python dicts preserve
insertion order), and a production's underlying `_compute_on_pytorch`
callable as a function of the positional inputs (and, for the parameterized
variant, of the keyword parameters). -/

/-- The two concrete `Production` variants of `production.py`:
`ConcreteProduction` (a symbol, a type-signature — irrelevant to these
claims — and the callable `_compute_on_pytorch`), and
`ParameterizedProduction`, which additionally carries the `_initialize`
callable and passes the state's entries to the computation as keyword
arguments. -/
inductive ProductionImpl (V : Type) where
  | concrete (symbol : String) (compute : List V → V)
  | parameterized (symbol : String)
      (compute : List V → List (String × V) → V)
      (initFn : Unit → List (String × V))

/-- The `initialize` method (named `initState` here): the empty dict for
`ConcreteProduction`, the result of calling `_initialize` for
`ParameterizedProduction`. -/
def ProductionImpl.initState {V : Type} :
    ProductionImpl V → List (String × V)
  | .concrete _ _ => []
  | .parameterized _ _ initFn => initFn ()

/-- `compute_on_pytorch`: `ConcreteProduction` asserts `state == dict()` and
applies the callable to the positional inputs (the assertion failure is
modelled as an error); `ParameterizedProduction` overrides it, passing the
state entries as keyword arguments with no assertion. -/
def ProductionImpl.compute_on_pytorch {V : Type} :
    ProductionImpl V → List (String × V) → List V → Except String V
  | .concrete _ compute, state, inputs =>
    if state.isEmpty then .ok (compute inputs)
    else .error "assertion failed: state == dict()"
  | .parameterized _ compute _, state, inputs => .ok (compute inputs state)

/-! ## Bounded A* search (`neurosym/search/bounded_astar.py`)

The search strategy is not among the provided sources (only its tests are),
so it is modelled from the spec (§4.5). -/

/-- Modelled from the spec: the inputs of bounded A* — the implicit search
graph (`expand` lists a node's children, finitely many; `isGoal` is the
caller's goal predicate), the caller-supplied cost function (a totally
ordered value, taken as `Nat`), and the depth bound `max_depth`. -/
structure AStarConfig (α : Type) where
  expand : α → List α
  isGoal : α → Bool
  cost : α → Nat
  maxDepth : Nat

/-- Pop the minimum-cost entry of the frontier, ties broken by earliest
insertion; returns the entry and the remaining frontier in order. -/
def selectMin {α : Type} (cfg : AStarConfig α) :
    List (α × Nat) → Option ((α × Nat) × List (α × Nat))
  | [] => none
  | x :: xs =>
    match selectMin cfg xs with
    | none => some (x, [])
    | some (y, ys) =>
      if cfg.cost y.1 < cfg.cost x.1 then some (y, x :: ys) else some (x, xs)

/-- Modelled from the spec: one bounded-A* run with explicit fuel, returning
`none` when the fuel is exhausted before the frontier empties.  Each step
pops the minimum-cost node; a node whose depth exceeds `max_depth` is
discarded without expansion; otherwise the node is yielded when it satisfies
the goal predicate and its children are pushed at depth + 1. -/
def astarFuel {α : Type} (cfg : AStarConfig α) :
    Nat → List (α × Nat) → Option (List α)
  | 0, frontier => if frontier.isEmpty then some [] else none
  | fuel + 1, frontier =>
    match selectMin cfg frontier with
    | none => some []
    | some ((a, d), rest) =>
      if cfg.maxDepth < d then astarFuel cfg fuel rest
      else
        match astarFuel cfg fuel
            (rest ++ (cfg.expand a).map (fun c => (c, d + 1))) with
        | none => none
        | some res => some (if cfg.isGoal a then a :: res else res)

/-- The number of nodes of the depth-`b` expansion tree below `a`: the size
of the search space a frontier entry with remaining depth budget `b` can
still cause to be popped. -/
def treeCount {α : Type} (expand : α → List α) : Nat → α → Nat
  | 0, _ => 1
  | b + 1, a => 1 + ((expand a).map (treeCount expand b)).sum

/-- The termination measure of a frontier: the total size of the remaining
search space, each entry weighted by its remaining depth budget. -/
def frontierMeasure {α : Type} (cfg : AStarConfig α)
    (frontier : List (α × Nat)) : Nat :=
  (frontier.map (fun e => treeCount cfg.expand (cfg.maxDepth + 1 - e.2) e.1)).sum

/-! ## Tokenizer lemmas -/

/-- A character that may occur inside a bare token. -/
def atomCharP (c : Char) : Prop :=
  c ≠ '(' ∧ c ≠ ')' ∧ c.isWhitespace = false

instance (c : Char) : Decidable (atomCharP c) := by
  unfold atomCharP; infer_instance

/-- A character list whose head (if any) cannot continue a bare token. -/
def boundary : List Char → Prop
  | [] => True
  | c :: _ => ¬ atomCharP c

/-- A string that the tokenizer reads back as one bare token. -/
def goodTok (s : String) : Prop :=
  s.data ≠ [] ∧ ∀ c ∈ s.data, atomCharP c

instance (s : String) : Decidable (goodTok s) := by
  unfold goodTok; infer_instance

theorem flushTok_nil (ts : List Token) : flushTok [] ts = ts := rfl

theorem tokenizeAux_lparen (cs : List Char) (cur : List Char) :
    tokenizeAux ('(' :: cs) cur = flushTok cur (.lparen :: tokenizeAux cs []) := by
  simp +decide [tokenizeAux]

theorem tokenizeAux_rparen (cs : List Char) (cur : List Char) :
    tokenizeAux (')' :: cs) cur = flushTok cur (.rparen :: tokenizeAux cs []) := by
  simp +decide [tokenizeAux]

theorem tokenizeAux_ws (c : Char) (cs : List Char) (cur : List Char)
    (h : ¬ atomCharP c) (h1 : c ≠ '(') (h2 : c ≠ ')') :
    tokenizeAux (c :: cs) cur = flushTok cur (tokenizeAux cs []) := by
  have hw : c.isWhitespace = true := by
    unfold atomCharP at h
    rcases Bool.eq_false_or_eq_true c.isWhitespace with hb | hb
    · exact hb
    · exact absurd ⟨h1, h2, hb⟩ h
  conv_lhs => rw [tokenizeAux]
  rw [if_neg h1, if_neg h2, if_pos hw]

theorem tokenizeAux_atomchar (c : Char) (cs : List Char) (cur : List Char)
    (h : atomCharP c) :
    tokenizeAux (c :: cs) cur = tokenizeAux cs (c :: cur) := by
  conv_lhs => rw [tokenizeAux]
  rw [if_neg h.1, if_neg h.2.1, if_neg (by simp [h.2.2])]

theorem tokenizeAux_token_run (t : List Char) (h : ∀ c ∈ t, atomCharP c)
    (rest cur : List Char) :
    tokenizeAux (t ++ rest) cur = tokenizeAux rest (t.reverse ++ cur) := by
  induction t generalizing cur with
  | nil => simp
  | cons c t ih =>
    have hc : atomCharP c := h c (List.mem_cons_self c t)
    rw [List.cons_append, tokenizeAux_atomchar c _ _ hc,
      ih (fun x hx => h x (List.mem_cons_of_mem c hx)) (c :: cur)]
    simp

theorem tokenizeAux_flush (rest : List Char) (hb : boundary rest)
    (cur : List Char) :
    tokenizeAux rest cur = flushTok cur (tokenizeAux rest []) := by
  cases rest with
  | nil => rfl
  | cons c cs =>
    by_cases h1 : c = '('
    · subst h1; rw [tokenizeAux_lparen, tokenizeAux_lparen, flushTok_nil]
    · by_cases h2 : c = ')'
      · subst h2; rw [tokenizeAux_rparen, tokenizeAux_rparen, flushTok_nil]
      · rw [tokenizeAux_ws c cs cur hb h1 h2, tokenizeAux_ws c cs [] hb h1 h2,
          flushTok_nil]

theorem tokenize_token (t : List Char) (hne : t ≠ [])
    (h : ∀ c ∈ t, atomCharP c) (rest : List Char) (hb : boundary rest) :
    tokenizeAux (t ++ rest) [] = .atom ⟨t⟩ :: tokenizeAux rest [] := by
  rw [tokenizeAux_token_run t h rest [], tokenizeAux_flush rest hb]
  obtain ⟨c, cs, hcc⟩ : ∃ c cs, t.reverse = c :: cs := by
    cases ht : t.reverse with
    | nil => exact absurd (List.reverse_eq_nil_iff.mp ht) hne
    | cons c cs => exact ⟨c, cs, rfl⟩
  rw [List.append_nil, hcc]
  show Token.atom ⟨(c :: cs).reverse⟩ :: _ = _
  rw [← hcc, List.reverse_reverse]

/-! ## Rendering and parsing round trip at the `PairVal` level -/

mutual

/-- A `PairVal` whose atoms are well-formed bare tokens and whose cons chains
are `nil`-terminated (as everything produced by `to_pair` is). -/
def goodPair : PairVal → Prop
  | .atom s => goodTok s
  | .nil => True
  | .cons a d => goodPair a ∧ goodTail d

/-- Well-formedness of the tail of a cons chain; a bare-token tail would be
an improper list. -/
def goodTail : PairVal → Prop
  | .nil => True
  | .atom _ => False
  | .cons a d => goodPair a ∧ goodTail d

end

mutual

/-- The token sequence of a rendered `PairVal`. -/
def pairTokens : PairVal → List Token
  | .atom s => [.atom s]
  | .nil => [.lparen, .rparen]
  | .cons a d => .lparen :: (pairTokens a ++ (tailTokens d ++ [.rparen]))

/-- The token sequence of the rendered tail of a cons chain. -/
def tailTokens : PairVal → List Token
  | .nil => []
  | .atom _ => []
  | .cons a d => pairTokens a ++ tailTokens d

end

theorem boundary_renderTail (d : PairVal) (hd : goodTail d) (rest : List Char) :
    boundary ((renderTail d).data ++ (')' :: rest)) := by
  cases d with
  | nil => exact fun h => absurd rfl h.2.1
  | atom s => exact absurd hd (by simp [goodTail])
  | cons a d' =>
    show boundary (((" " ++ renderPair a) ++ renderTail d').data ++ (')' :: rest))
    rw [String.data_append, String.data_append]
    show ¬ atomCharP ' '
    decide

mutual

theorem tokenize_renderPair (p : PairVal) (hp : goodPair p) (rest : List Char)
    (hb : boundary rest) :
    tokenizeAux ((renderPair p).data ++ rest) [] =
      pairTokens p ++ tokenizeAux rest [] := by
  match p with
  | .atom s =>
    exact tokenize_token s.data hp.1 hp.2 rest hb
  | .nil =>
    show tokenizeAux ('(' :: (')' :: rest)) [] = _
    rw [tokenizeAux_lparen, flushTok_nil, tokenizeAux_rparen, flushTok_nil]
    rfl
  | .cons a d =>
    have harr : ((("(" ++ renderPair a) ++ renderTail d) ++ ")").data ++ rest
        = '(' :: ((renderPair a).data ++ ((renderTail d).data ++ (')' :: rest))) := by
      rw [String.data_append, String.data_append, String.data_append]
      show (((['('] ++ (renderPair a).data) ++ (renderTail d).data) ++ [')']) ++ rest = _
      simp
    show tokenizeAux (((("(" ++ renderPair a) ++ renderTail d) ++ ")").data ++ rest) [] = _
    rw [harr, tokenizeAux_lparen, flushTok_nil,
      tokenize_renderPair a hp.1 ((renderTail d).data ++ (')' :: rest))
        (boundary_renderTail d hp.2 rest),
      tokenize_renderTail d hp.2 rest hb]
    simp [pairTokens]

theorem tokenize_renderTail (d : PairVal) (hd : goodTail d) (rest : List Char)
    (hb : boundary rest) :
    tokenizeAux ((renderTail d).data ++ (')' :: rest)) [] =
      tailTokens d ++ (.rparen :: tokenizeAux rest []) := by
  match d with
  | .nil =>
    show tokenizeAux (')' :: rest) [] = _
    rw [tokenizeAux_rparen, flushTok_nil]
    rfl
  | .atom s => exact absurd hd (by simp [goodTail])
  | .cons a d' =>
    have harr : ((" " ++ renderPair a) ++ renderTail d').data ++ (')' :: rest)
        = ' ' :: ((renderPair a).data ++ ((renderTail d').data ++ (')' :: rest))) := by
      rw [String.data_append, String.data_append]
      show (([' '] ++ (renderPair a).data) ++ (renderTail d').data) ++ (')' :: rest) = _
      simp
    show tokenizeAux (((" " ++ renderPair a) ++ renderTail d').data ++ (')' :: rest)) [] = _
    rw [harr, tokenizeAux_ws ' ' _ [] (by decide) (by decide) (by decide), flushTok_nil,
      tokenize_renderPair a hd.1 ((renderTail d').data ++ (')' :: rest))
        (boundary_renderTail d' hd.2 rest),
      tokenize_renderTail d' hd.2 rest hb]
    simp [tailTokens]

end

/-- `cons` each element of `l` in front of `d`. -/
def appendToPair : List PairVal → PairVal → PairVal
  | [], d => d
  | x :: xs, d => .cons x (appendToPair xs d)

theorem appendToPair_nil (l : List PairVal) : appendToPair l .nil = listToPair l := by
  induction l with
  | nil => rfl
  | cons x xs ih => simp [appendToPair, listToPair, ih]

theorem appendToPair_snoc (l : List PairVal) (x : PairVal) (d : PairVal) :
    appendToPair (l ++ [x]) d = appendToPair l (.cons x d) := by
  induction l with
  | nil => rfl
  | cons y ys ih => simp [appendToPair, ih]

mutual

theorem parseTokens_pairTokens (p : PairVal) (hp : goodPair p)
    (ts : List Token) (stack : List (List PairVal)) (acc : List PairVal) :
    parseTokens (pairTokens p ++ ts) stack acc = parseTokens ts stack (p :: acc) := by
  match p with
  | .atom s => rfl
  | .nil => rfl
  | .cons a d =>
    show parseTokens (.lparen :: ((pairTokens a ++ (tailTokens d ++ [.rparen])) ++ ts)) stack acc = _
    rw [List.append_assoc, List.append_assoc]
    show parseTokens (pairTokens a ++ (tailTokens d ++ (.rparen :: ts))) (acc :: stack) [] = _
    rw [parseTokens_pairTokens a hp.1 (tailTokens d ++ (.rparen :: ts)) (acc :: stack) [],
      parseTokens_tailTokens d hp.2 ts stack acc [a]]
    rfl

theorem parseTokens_tailTokens (d : PairVal) (hd : goodTail d)
    (ts : List Token) (stack : List (List PairVal)) (top : List PairVal)
    (acc : List PairVal) :
    parseTokens (tailTokens d ++ (.rparen :: ts)) (top :: stack) acc =
      parseTokens ts stack (appendToPair acc.reverse d :: top) := by
  match d with
  | .nil =>
    show parseTokens (.rparen :: ts) (top :: stack) acc = _
    rw [appendToPair_nil]
    rfl
  | .atom s => exact absurd hd (by simp [goodTail])
  | .cons a d' =>
    show parseTokens ((pairTokens a ++ tailTokens d') ++ (.rparen :: ts)) (top :: stack) acc = _
    rw [List.append_assoc,
      parseTokens_pairTokens a hd.1 (tailTokens d' ++ (.rparen :: ts)) (top :: stack) acc,
      parseTokens_tailTokens d' hd.2 ts stack top (a :: acc)]
    rw [show (a :: acc).reverse = acc.reverse ++ [a] from by simp,
      appendToPair_snoc]

end

/-- Parsing the rendering of a well-formed `PairVal` recovers exactly that
value as the single top-level expression. -/
theorem parsePairs_renderPair (p : PairVal) (hp : goodPair p) :
    parsePairs (renderPair p) = .ok [p] := by
  unfold parsePairs tokenize
  have h1 : tokenizeAux (renderPair p).data [] = pairTokens p := by
    have := tokenize_renderPair p hp [] trivial
    rw [show tokenizeAux [] [] = [] from rfl, List.append_nil] at this
    simpa using this
  rw [h1]
  have h2 := parseTokens_pairTokens p hp [] [] []
  simpa using h2

/-! ## String prefix helpers -/

theorem strHasPrefix_append (p s : String) : strHasPrefix (p ++ s) p = true := by
  unfold strHasPrefix
  rw [String.data_append, List.isPrefixOf_iff_prefix]
  exact List.prefix_append _ _

theorem strDrop_leaf (s : String) : strDrop ("leaf-" ++ s) 5 = s := by
  unfold strDrop
  rw [String.data_append]
  rw [show (5 : Nat) = ("leaf-".data).length from rfl, List.drop_left]

theorem strHasPrefix_iff (s p : String) :
    strHasPrefix s p = true ↔ p.data <+: s.data := by
  unfold strHasPrefix
  exact List.isPrefixOf_iff_prefix

theorem dollar_not_leaf (s : String) (h : strHasPrefix s "$" = true) :
    strHasPrefix s "leaf-" = false := by
  rw [strHasPrefix_iff] at h
  obtain ⟨t, ht⟩ := h
  have hst : s.data = '$' :: t := by
    rw [← ht]; rfl
  rcases Bool.eq_false_or_eq_true (strHasPrefix s "leaf-") with hb | hb
  · rw [strHasPrefix_iff] at hb
    obtain ⟨u, hu⟩ := hb
    rw [hst, show "leaf-".data = 'l' :: ['e', 'a', 'f', '-'] from rfl,
      List.cons_append] at hu
    injection hu with h1 _
    exact absurd h1 (by decide)
  · exact hb

theorem dollar_nonempty (s : String) (h : strHasPrefix s "$" = true) :
    s.data ≠ [] := by
  rw [strHasPrefix_iff] at h
  obtain ⟨t, ht⟩ := h
  rw [← ht]
  exact List.cons_ne_nil _ _

theorem goodTok_leaf_append (s : String) (h : ∀ c ∈ s.data, atomCharP c) :
    goodTok ("leaf-" ++ s) := by
  constructor
  · rw [String.data_append]
    exact List.append_ne_nil_of_left_ne_nil (by decide) _
  · intro c hc
    rw [String.data_append] at hc
    rcases List.mem_append.mp hc with hl | hr
    · have hdat : "leaf-".data = ['l', 'e', 'a', 'f', '-'] := rfl
      rw [hdat] at hl
      simp only [List.mem_cons, List.not_mem_nil, or_false] at hl
      rcases hl with rfl | rfl | rfl | rfl | rfl <;> decide
    · exact h c hr

/-! ## The round trip through `to_pair` and `from_pair` -/

theorem symbols_head (sym : String) (cs : List SExpression) :
    symbols_for_program (.mk sym cs) = sym :: symbols_for_program_children cs := rfl

mutual

theorem good_to_pair (e : SExpression) (m : Bool)
    (h : ∀ s ∈ symbols_for_program e, goodTok s) : goodPair (to_pair e m) := by
  match e with
  | .mk sym cs =>
    have hsym : goodTok sym := h sym (by
      rw [symbols_head]; exact List.mem_cons_self _ _)
    have hcs : ∀ s ∈ symbols_for_program_children cs, goodTok s := fun s hs =>
      h s (by rw [symbols_head]; exact List.mem_cons_of_mem _ hs)
    rw [to_pair]
    by_cases hm : (m && cs.isEmpty) = true
    · rw [if_pos hm]
      by_cases hd : strHasPrefix sym "$" = true
      · rw [if_pos hd]; exact hsym
      · rw [if_neg hd]; exact goodTok_leaf_append sym hsym.2
    · rw [if_neg hm]
      show goodPair (.cons (.atom sym) (listToPair (to_pair_children cs m)))
      exact ⟨hsym, good_to_pair_children cs m hcs⟩

theorem good_to_pair_children (cs : List SExpression) (m : Bool)
    (h : ∀ s ∈ symbols_for_program_children cs, goodTok s) :
    goodTail (listToPair (to_pair_children cs m)) := by
  match cs with
  | [] => exact trivial
  | c :: cs' =>
    have hc : ∀ s ∈ symbols_for_program c, goodTok s := fun s hs =>
      h s (by
        show s ∈ symbols_for_program c ++ symbols_for_program_children cs'
        exact List.mem_append_left _ hs)
    have hcs' : ∀ s ∈ symbols_for_program_children cs', goodTok s := fun s hs =>
      h s (by
        show s ∈ symbols_for_program c ++ symbols_for_program_children cs'
        exact List.mem_append_right _ hs)
    show goodTail (.cons (to_pair c m) (listToPair (to_pair_children cs' m)))
    exact ⟨good_to_pair c m hc, good_to_pair_children cs' m hcs'⟩

end

/-- The reserved-name condition of the round-trip claims: no symbol of the
program starts with the `leaf-` prefix or the `$` marker. -/
def noReserved (e : SExpression) : Prop :=
  ∀ s ∈ symbols_for_program e, strHasPrefix s "leaf-" = false ∧
    strHasPrefix s "$" = false

instance (e : SExpression) : Decidable (noReserved e) := by
  unfold noReserved; infer_instance

mutual

theorem from_pair_to_pair (e : SExpression) (m : Bool) (S : List String)
    (h : noReserved e) :
    from_pair (to_pair e m) S m = .ok (toPyObj e) := by
  match e with
  | .mk sym cs =>
    have hsym := h sym (by rw [symbols_head]; exact List.mem_cons_self _ _)
    have hcs : ∀ s ∈ symbols_for_program_children cs,
        strHasPrefix s "leaf-" = false ∧ strHasPrefix s "$" = false := fun s hs =>
      h s (by rw [symbols_head]; exact List.mem_cons_of_mem _ hs)
    rw [to_pair]
    by_cases hm : (m && cs.isEmpty) = true
    · obtain ⟨hm1, hm2⟩ := Bool.and_eq_true .. |>.mp hm
      have hnil : cs = [] := List.isEmpty_iff.mp hm2
      rw [if_pos hm, if_neg (by rw [hsym.2]; exact Bool.false_ne_true)]
      rw [from_pair, hm1]
      rw [show (true && strHasPrefix ("leaf-" ++ sym) "leaf-") = true from by
        rw [strHasPrefix_append]; rfl]
      rw [if_pos rfl, strDrop_leaf, hnil]
      rfl
    · rw [if_neg hm]
      show from_pair (.cons (.atom sym) (listToPair (to_pair_children cs m))) S m = _
      rw [from_pair, from_pair_to_pair_children cs m S hcs]
      rfl

theorem from_pair_to_pair_children (cs : List SExpression) (m : Bool)
    (S : List String)
    (h : ∀ s ∈ symbols_for_program_children cs,
      strHasPrefix s "leaf-" = false ∧ strHasPrefix s "$" = false) :
    from_pair_tail (listToPair (to_pair_children cs m)) S m =
      .ok (toPyObjList cs) := by
  match cs with
  | [] => rfl
  | c :: cs' =>
    have hc : noReserved c := fun s hs =>
      h s (by
        show s ∈ symbols_for_program c ++ symbols_for_program_children cs'
        exact List.mem_append_left _ hs)
    have hcs' : ∀ s ∈ symbols_for_program_children cs',
        strHasPrefix s "leaf-" = false ∧ strHasPrefix s "$" = false := fun s hs =>
      h s (by
        show s ∈ symbols_for_program c ++ symbols_for_program_children cs'
        exact List.mem_append_right _ hs)
    show from_pair_tail (.cons (to_pair c m) (listToPair (to_pair_children cs' m))) S m = _
    rw [from_pair_tail, from_pair_to_pair c m S hc,
      from_pair_to_pair_children cs' m S hcs']
    rfl

end

mutual

/-- The symbols of `e` that occur as zero-child nodes. -/
def leafSyms : SExpression → List String
  | .mk s cs => if cs.isEmpty then [s] else leafSymsChildren cs

/-- `leafSyms` concatenated over a children list. -/
def leafSymsChildren : List SExpression → List String
  | [] => []
  | c :: cs => leafSyms c ++ leafSymsChildren cs

end

/-! ## Claim C1 -/

/-- C1 (amended): for every symbolic program `e` whose symbols are valid bare
tokens (nonempty, free of parentheses and whitespace) and disjoint from the
reserved prefix `leaf-` and marker `$`, and for a fixed mode `m`, parsing the
rendering of `e` returns `e`, given a `should_not_be_leaf` set containing
every symbol of `e` occurring as a zero-child node.  (The amendment adds the
valid-token requirement; without it the rendering of a symbol containing
whitespace or parentheses re-tokenizes differently and the round trip
fails.) -/
theorem C1_round_trip (e : SExpression) (m : Bool) (S : List String)
    (hgood : ∀ s ∈ symbols_for_program e, goodTok s)
    (hres : noReserved e)
    (_hS : ∀ s ∈ leafSyms e, s ∈ S) :
    parse_s_expression (render_s_expression e m) S m = .ok (toPyObj e) := by
  unfold parse_s_expression render_s_expression
  rw [parsePairs_renderPair (to_pair e m) (good_to_pair e m hgood)]
  exact from_pair_to_pair e m S hres

/-- Witness for C1: a concrete program, round-tripped in default mode with
the set of its zero-child symbols. -/
theorem C1_round_trip_witness :
    parse_s_expression
        (render_s_expression (.mk "f" [.mk "x" [], .mk "g" [.mk "y" []]]) false)
        ["x", "y"] false
      = .ok (toPyObj (.mk "f" [.mk "x" [], .mk "g" [.mk "y" []]])) :=
  C1_round_trip (.mk "f" [.mk "x" [], .mk "g" [.mk "y" []]]) false ["x", "y"]
    (by decide) (by decide) (by decide)

/-- Counterexample to C1 as stated: the symbol `"a b"` is disjoint from the
reserved prefix and marker and is supplied in `should_not_be_leaf`, yet its
rendering re-tokenizes as two tokens and the round trip fails. -/
theorem C1_counterexample :
    parse_s_expression (render_s_expression (.mk "a b" []) false) ["a b"] false
      ≠ .ok (toPyObj (.mk "a b" [])) := by decide

/-! ## Claim C9 -/

/-- C9 (amended): in `for_stitch` mode, `should_not_be_leaf` is not needed
for zero-child nodes: a zero-child program whose symbol consists of valid
token characters round-trips with the empty set, because parsing strips a
leading `leaf-` and passes `$`-prefixed tokens through before consulting the
set.  (The amendment adds the valid-token-character requirement.) -/
theorem C9_stitch_leaf_round_trip (sym : String)
    (h : ∀ c ∈ sym.data, atomCharP c) :
    parse_s_expression (render_s_expression (.mk sym []) true) [] true
      = .ok (.node sym []) := by
  have hto : to_pair (.mk sym []) true =
      if strHasPrefix sym "$" then .atom sym else .atom ("leaf-" ++ sym) := rfl
  unfold parse_s_expression render_s_expression
  by_cases hd : strHasPrefix sym "$" = true
  · rw [hto, if_pos hd]
    rw [parsePairs_renderPair (.atom sym) ⟨dollar_nonempty sym hd, h⟩]
    show from_pair (.atom sym) [] true = _
    rw [from_pair,
      show (true && strHasPrefix sym "leaf-") = false from by
        rw [dollar_not_leaf sym hd]; rfl,
      show (true && strHasPrefix sym "$") = true from by rw [hd]; rfl]
    rw [if_neg Bool.false_ne_true, if_pos rfl]
  · rw [hto, if_neg hd]
    rw [parsePairs_renderPair (.atom ("leaf-" ++ sym)) (goodTok_leaf_append sym h)]
    show from_pair (.atom ("leaf-" ++ sym)) [] true = _
    rw [from_pair,
      show (true && strHasPrefix ("leaf-" ++ sym) "leaf-") = true from by
        rw [strHasPrefix_append]; rfl]
    rw [if_pos rfl, strDrop_leaf]

/-- Witness for C9: the zero-child program `one` round-trips in stitch mode
with the empty `should_not_be_leaf` set. -/
theorem C9_stitch_leaf_round_trip_witness :
    parse_s_expression (render_s_expression (.mk "one" []) true) [] true
      = .ok (.node "one" []) :=
  C9_stitch_leaf_round_trip "one" (by decide)

/-- Counterexample to C9 as stated: a zero-child node whose symbol contains
a space renders to a string that re-tokenizes as two top-level expressions,
so parsing fails instead of returning the node. -/
theorem C9_counterexample :
    parse_s_expression (render_s_expression (.mk "a b" []) true) [] true
      ≠ .ok (toPyObj (.mk "a b" [])) := by decide

/-! ## Claim C3 -/

/-- The rendered children of a node: for each child, a space followed by the
child's own rendering. -/
def renderedChildren (cs : List SExpression) (m : Bool) : String :=
  match cs with
  | [] => ""
  | c :: rest => (" " ++ render_s_expression c m) ++ renderedChildren rest m

theorem renderTail_children (cs : List SExpression) (m : Bool) :
    renderTail (listToPair (to_pair_children cs m)) = renderedChildren cs m := by
  induction cs with
  | nil => rfl
  | cons c rest ih =>
    show renderTail (.cons (to_pair c m) (listToPair (to_pair_children rest m))) = _
    rw [renderTail, ih]
    rfl

/-- C3: in `for_stitch` mode a zero-child node renders as its bare symbol
when the symbol begins with `$`, and as the symbol prefixed with `leaf-`
otherwise; a non-leaf node renders as a parenthesized space-separated list
in both modes. -/
theorem C3_render_modes :
    (∀ s : String, render_s_expression (.mk s []) true
      = if strHasPrefix s "$" then s else "leaf-" ++ s) ∧
    (∀ (s : String) (cs : List SExpression) (m : Bool), cs ≠ [] →
      render_s_expression (.mk s cs) m
        = (("(" ++ s) ++ renderedChildren cs m) ++ ")") := by
  constructor
  · intro s
    show renderPair (if strHasPrefix s "$" then .atom s else .atom ("leaf-" ++ s)) = _
    by_cases hd : strHasPrefix s "$" = true
    · rw [if_pos hd, if_pos hd, renderPair]
    · rw [if_neg hd, if_neg hd, renderPair]
  · intro s cs m hne
    have hie : cs.isEmpty = false := by
      cases cs with
      | nil => exact absurd rfl hne
      | cons _ _ => rfl
    unfold render_s_expression
    rw [to_pair, hie, Bool.and_false, if_neg Bool.false_ne_true]
    show renderPair (.cons (.atom s) (listToPair (to_pair_children cs m))) = _
    rw [renderPair, renderTail_children]
    rfl

/-- Witness for C3: concrete stitch-mode leaves and a concrete non-leaf
rendering in default mode. -/
theorem C3_render_modes_witness :
    render_s_expression (.mk "x" []) true = "leaf-x" ∧
    render_s_expression (.mk "$2" []) true = "$2" ∧
    render_s_expression (.mk "f" [.mk "x" []]) false = "(f (x))" := by
  refine ⟨?_, ?_, ?_⟩
  · rw [C3_render_modes.1 "x"]; decide
  · rw [C3_render_modes.1 "$2"]; decide
  · rw [C3_render_modes.2 "f" [.mk "x" []] false (List.cons_ne_nil _ _)]; decide

/-! ## Claim C4 -/

/-- C4 (amended): a string that is a single bare token parses to a
zero-child node exactly when (in `for_stitch` mode) it starts with `leaf-`
(the prefix being stripped) or `$`, or when it belongs to
`should_not_be_leaf`; otherwise the bare string itself is returned, not an
`SExpression`.  (The original claim said a zero-child node is returned in
every mode and for every set.) -/
theorem C4_bare_token (t : String) (S : List String) (m : Bool)
    (h : goodTok t) :
    parse_s_expression t S m =
      (if m && strHasPrefix t "leaf-" then .ok (.node (strDrop t 5) [])
      else if m && strHasPrefix t "$" then .ok (.node t [])
      else if t ∈ S then .ok (.node t [])
      else .ok (.pystr t)) := by
  unfold parse_s_expression
  have hp : parsePairs t = .ok [.atom t] := by
    have h1 := parsePairs_renderPair (.atom t) h
    rw [show renderPair (.atom t) = t from rfl] at h1
    exact h1
  rw [hp]
  show from_pair (.atom t) S m = _
  rw [from_pair]

/-- Witness for C4: the bare token `f`, outside stitch mode with an empty
set, parses to the raw Python string `"f"`. -/
theorem C4_bare_token_witness :
    parse_s_expression "f" [] false = .ok (.pystr "f") := by
  rw [C4_bare_token "f" [] false (by decide)]
  decide

/-- Counterexample to C4 as stated: the bare token `f` with an empty
`should_not_be_leaf` in default mode does not parse to the zero-child node
`SExpression("f", ())` — the raw string is returned instead. -/
theorem C4_counterexample :
    parse_s_expression "f" [] false ≠ .ok (.node "f" []) := by decide

/-! ## Claim C8 -/

/-- C8: when the single top-level expression of the input has a non-token
(parenthesized or `()`) expression in head position, `parse_s_expression`
fails fast with the head-shape assertion error, in every mode and for every
`should_not_be_leaf` set. -/
theorem C8_nonatom_head (s : String) (S : List String) (m : Bool)
    (h d : PairVal) (hp : parsePairs s = .ok [.cons h d])
    (hh : ∀ a, h ≠ .atom a) :
    parse_s_expression s S m = .error "Expected string" := by
  unfold parse_s_expression
  rw [hp]
  show from_pair (.cons h d) S m = _
  rw [from_pair]
  cases h with
  | atom a => exact absurd rfl (hh a)
  | nil => exact fun _ contra => PairVal.noConfusion contra
  | cons x y => exact fun _ contra => PairVal.noConfusion contra

/-- Witness for C8: the input `((f) x)` has a parenthesized head and fails
with the head-shape error. -/
theorem C8_nonatom_head_witness :
    parse_s_expression "((f) x)" [] false = .error "Expected string" :=
  C8_nonatom_head "((f) x)" [] false (.cons (.atom "f") .nil)
    (.cons (.atom "x") .nil) (by decide) (fun _ ha => PairVal.noConfusion ha)

/-! ## Claim C2 -/

theorem parseTokens_error_shape (ts : List Token) :
    ∀ (stack : List (List PairVal)) (acc : List PairVal) (e : String),
      parseTokens ts stack acc = .error e →
      e = "unbalanced parentheses" ∨ e = "unexpected close paren" := by
  induction ts with
  | nil =>
    intro stack acc e h
    cases stack with
    | nil =>
      rw [show parseTokens [] [] acc = .ok acc.reverse from rfl] at h
      exact Except.noConfusion h
    | cons top st =>
      rw [show parseTokens [] (top :: st) acc = .error "unbalanced parentheses"
        from rfl] at h
      injection h with he
      exact Or.inl he.symm
  | cons t ts ih =>
    intro stack acc e h
    cases t with
    | atom s =>
      rw [show parseTokens (.atom s :: ts) stack acc
        = parseTokens ts stack (.atom s :: acc) from rfl] at h
      exact ih _ _ _ h
    | lparen =>
      rw [show parseTokens (.lparen :: ts) stack acc
        = parseTokens ts (acc :: stack) [] from rfl] at h
      exact ih _ _ _ h
    | rparen =>
      cases stack with
      | nil =>
        rw [show parseTokens (.rparen :: ts) [] acc
          = .error "unexpected close paren" from rfl] at h
        injection h with he
        exact Or.inr he.symm
      | cons top st =>
        rw [show parseTokens (.rparen :: ts) (top :: st) acc
          = parseTokens ts st (listToPair acc.reverse :: top) from rfl] at h
        exact ih _ _ _ h

mutual

theorem from_pair_error_shape (p : PairVal) (S : List String) (m : Bool)
    (e : String) (h : from_pair p S m = .error e) :
    e = "Expected pair" ∨ e = "Expected string" ∨ e = "improper list" := by
  match p with
  | .atom s =>
    rw [from_pair] at h
    split at h
    · exact Except.noConfusion h
    · split at h
      · exact Except.noConfusion h
      · split at h
        · exact Except.noConfusion h
        · exact Except.noConfusion h
  | .nil =>
    rw [from_pair] at h
    injection h with he
    exact Or.inl he.symm
  | .cons car cdr =>
    match car with
    | .atom head =>
      rw [from_pair] at h
      cases hres : from_pair_tail cdr S m with
      | error e' =>
        rw [hres] at h
        injection h with he
        exact (from_pair_tail_error_shape cdr S m e' hres).imp id id |>.imp_left
          (fun hx => he ▸ hx) |>.imp_right (fun hx => he ▸ hx)
      | ok tail =>
        rw [hres] at h
        exact Except.noConfusion h
    | .nil =>
      rw [from_pair] at h
      · injection h with he
        exact Or.inr (Or.inl he.symm)
      · exact fun _ contra => PairVal.noConfusion contra
    | .cons x y =>
      rw [from_pair] at h
      · injection h with he
        exact Or.inr (Or.inl he.symm)
      · exact fun _ contra => PairVal.noConfusion contra

theorem from_pair_tail_error_shape (p : PairVal) (S : List String) (m : Bool)
    (e : String) (h : from_pair_tail p S m = .error e) :
    e = "Expected pair" ∨ e = "Expected string" ∨ e = "improper list" := by
  match p with
  | .nil =>
    rw [from_pair_tail] at h
    exact Except.noConfusion h
  | .atom s =>
    rw [from_pair_tail] at h
    injection h with he
    exact Or.inr (Or.inr he.symm)
  | .cons car cdr =>
    rw [from_pair_tail] at h
    cases hcar : from_pair car S m with
    | error e' =>
      rw [hcar] at h
      injection h with he
      exact he ▸ from_pair_error_shape car S m e' hcar
    | ok x =>
      rw [hcar] at h
      cases hres : from_pair_tail cdr S m with
      | error e' =>
        rw [hres] at h
        injection h with he
        exact he ▸ from_pair_tail_error_shape cdr S m e' hres
      | ok xs =>
        rw [hres] at h
        exact Except.noConfusion h

end

/-- C2 (amended): `parse_s_expression` fails with the not-exactly-one-
expression (`MalformedInput`) error precisely when the input tokenizes into
a balanced sequence of zero or of two or more top-level expressions; the
error is returned to the caller, never recovered.  (The original claim's
"only if" fails: an input with exactly one top-level expression can still
fail, with a different structural error, e.g. on a non-token head, and
unbalanced inputs fail inside the tokenizing parser.) -/
theorem C2_malformed_input (s : String) (S : List String) (m : Bool) :
    parse_s_expression s S m = .error "Expected one expression" ↔
      ∃ ps, parsePairs s = .ok ps ∧ ps.length ≠ 1 := by
  unfold parse_s_expression
  cases hp : parsePairs s with
  | error e =>
    constructor
    · intro h
      injection h with he
      unfold parsePairs at hp
      rcases parseTokens_error_shape (tokenize s) [] [] e hp with h1 | h1 <;>
        (rw [h1] at he; exact absurd he (by decide))
    · rintro ⟨ps, hps, _⟩
      exact Except.noConfusion hps
  | ok ps =>
    cases ps with
    | nil =>
      constructor
      · intro _
        exact ⟨[], rfl, by decide⟩
      · intro _
        rfl
    | cons p rest =>
      cases rest with
      | nil =>
        constructor
        · intro h
          rcases from_pair_error_shape p S m _ h with h1 | h1 | h1 <;>
            exact absurd h1 (by decide)
        · rintro ⟨ps', hps', hlen⟩
          injection hps' with he
          exact absurd (show ps'.length = 1 from by rw [← he]; rfl) hlen
      | cons q rest' =>
        constructor
        · intro _
          exact ⟨p :: q :: rest', rfl, by simp⟩
        · intro _
          rfl

/-- Witness for C2: the input `a b` holds two top-level expressions and
fails with the `MalformedInput` error. -/
theorem C2_malformed_input_witness :
    parse_s_expression "a b" [] false = .error "Expected one expression" :=
  (C2_malformed_input "a b" [] false).mpr ⟨[.atom "a", .atom "b"], by decide, by decide⟩

/-- Counterexample to C2 as stated: the input `((f) x)` holds exactly one
top-level expression, yet `parse_s_expression` fails (with the head-shape
assertion error), refuting "fails only if not exactly one top-level
expression". -/
theorem C2_counterexample :
    parsePairs "((f) x)"
        = .ok [.cons (.cons (.atom "f") .nil) (.cons (.atom "x") .nil)] ∧
      parse_s_expression "((f) x)" [] false = .error "Expected string" :=
  ⟨by decide, by decide⟩

/-! ## Claim C10 -/

mutual

/-- The number of nodes of a program tree. -/
def nodeCount : SExpression → Nat
  | .mk _ cs => 1 + nodeCountChildren cs

/-- Total node count of a list of trees. -/
def nodeCountChildren : List SExpression → Nat
  | [] => 0
  | c :: cs => nodeCount c + nodeCountChildren cs

end

theorem nodeCountChildren_append (l₁ l₂ : List SExpression) :
    nodeCountChildren (l₁ ++ l₂) = nodeCountChildren l₁ + nodeCountChildren l₂ := by
  induction l₁ with
  | nil => rw [List.nil_append, nodeCountChildren, Nat.zero_add]
  | cons c cs ih =>
    rw [List.cons_append, nodeCountChildren, nodeCountChildren, ih, Nat.add_assoc]

/-- An explicitly stack-driven preorder traversal: visit the first tree's
root, then push its children in front of the remaining trees. -/
def preorderStack : List SExpression → List String
  | [] => []
  | .mk s cs :: rest => s :: preorderStack (cs ++ rest)
termination_by l => nodeCountChildren l
decreasing_by
  rw [nodeCountChildren_append, nodeCountChildren, nodeCount]
  omega

theorem symbols_children_append (l₁ l₂ : List SExpression) :
    symbols_for_program_children (l₁ ++ l₂)
      = symbols_for_program_children l₁ ++ symbols_for_program_children l₂ := by
  induction l₁ with
  | nil => rw [List.nil_append, symbols_for_program_children, List.nil_append]
  | cons c cs ih =>
    rw [List.cons_append, symbols_for_program_children,
      symbols_for_program_children, ih, List.append_assoc]

theorem preorderStack_eq (l : List SExpression) :
    preorderStack l = symbols_for_program_children l := by
  induction l using preorderStack.induct with
  | case1 => rw [preorderStack]; rfl
  | case2 s cs rest ih =>
    rw [preorderStack, ih, symbols_children_append, symbols_for_program_children,
      symbols_for_program]
    rfl

mutual

theorem symbols_length (e : SExpression) :
    (symbols_for_program e).length = nodeCount e := by
  match e with
  | .mk s cs =>
    rw [symbols_for_program, nodeCount, List.length_cons,
      symbols_children_length cs]
    omega

theorem symbols_children_length (cs : List SExpression) :
    (symbols_for_program_children cs).length = nodeCountChildren cs := by
  match cs with
  | [] => rfl
  | c :: cs' =>
    rw [symbols_for_program_children, nodeCountChildren, List.length_append,
      symbols_length c, symbols_children_length cs']

end

/-- C10: `symbols_for_program` lists the symbols of all nodes in preorder —
the root's symbol first, then the children's symbol lists left to right
(matching the stack-driven preorder traversal) — and its length equals the
total number of nodes. -/
theorem C10_symbols_preorder (e : SExpression) :
    symbols_for_program e = preorderStack [e] ∧
      (symbols_for_program e).length = nodeCount e := by
  constructor
  · rw [preorderStack_eq, symbols_for_program_children,
      symbols_for_program_children, List.append_nil]
  · exact symbols_length e

/-! ## Claims C6 and C7 -/

/-- C6: for a `ParameterizedProduction`, `initialize()` is exactly the
result of calling the `_initialize` callable, and `compute_on_pytorch`
applies the underlying computation to the positional inputs with the state's
entries passed as the keyword parameters — in particular with
`state = initialize()` it equals `_compute_on_pytorch(*inputs, **_initialize())`. -/
theorem C6_parameterized_compute {V : Type} (s : String)
    (f : List V → List (String × V) → V) (i : Unit → List (String × V))
    (state : List (String × V)) (inputs : List V) :
    (ProductionImpl.parameterized s f i).initState = i () ∧
      (ProductionImpl.parameterized s f i).compute_on_pytorch state inputs
        = .ok (f inputs state) :=
  ⟨rfl, rfl⟩

/-- C7: for a `ConcreteProduction`, calling `compute_on_pytorch` with
`state = initialize()` never trips the `assert state == dict()` (the result
is an `ok`, not the assertion error) and returns the underlying computation
of the positional inputs alone. -/
theorem C7_concrete_compute {V : Type} (s : String) (f : List V → V)
    (inputs : List V) :
    (ProductionImpl.concrete s f).compute_on_pytorch
        ((ProductionImpl.concrete s f).initState) inputs = .ok (f inputs) :=
  rfl

/-! ## Claim C5 -/

theorem treeCount_pos {α : Type} (ex : α → List α) (b : Nat) (a : α) :
    1 ≤ treeCount ex b a := by
  cases b with
  | zero => exact Nat.le_refl 1
  | succ n => exact Nat.le_add_right 1 _

theorem selectMin_eq_none {α : Type} (cfg : AStarConfig α)
    (l : List (α × Nat)) (h : selectMin cfg l = none) : l = [] := by
  cases l with
  | nil => rfl
  | cons x xs =>
    cases hs : selectMin cfg xs with
    | none =>
      simp only [selectMin, hs] at h
      exact Option.noConfusion h
    | some p =>
      obtain ⟨y, ys⟩ := p
      simp only [selectMin, hs] at h
      split at h <;> exact Option.noConfusion h

theorem selectMin_sum {α : Type} (cfg : AStarConfig α) (g : α × Nat → Nat) :
    ∀ (l : List (α × Nat)) (x : α × Nat) (rest : List (α × Nat)),
      selectMin cfg l = some (x, rest) →
      (l.map g).sum = g x + (rest.map g).sum := by
  intro l
  induction l with
  | nil => exact fun x rest h => Option.noConfusion h
  | cons a as ih =>
    intro x rest h
    cases hs : selectMin cfg as with
    | none =>
      simp only [selectMin, hs] at h
      injection h with hpair
      rw [Prod.mk.injEq] at hpair
      obtain ⟨h1, h2⟩ := hpair
      subst h1; subst h2
      have hnil := selectMin_eq_none cfg as hs
      subst hnil
      simp
    | some p =>
      obtain ⟨y, ys⟩ := p
      simp only [selectMin, hs] at h
      have hsum := ih y ys hs
      split at h
      · injection h with hpair
        rw [Prod.mk.injEq] at hpair
        obtain ⟨h1, h2⟩ := hpair
        subst h1; subst h2
        rw [List.map_cons, List.sum_cons, hsum, List.map_cons, List.sum_cons]
        omega
      · injection h with hpair
        rw [Prod.mk.injEq] at hpair
        obtain ⟨h1, h2⟩ := hpair
        subst h1; subst h2
        rfl

theorem astarFuel_total {α : Type} (cfg : AStarConfig α) :
    ∀ (fuel : Nat) (frontier : List (α × Nat)),
      frontierMeasure cfg frontier < fuel →
      (astarFuel cfg fuel frontier).isSome = true := by
  intro fuel
  induction fuel with
  | zero => exact fun frontier h => absurd h (Nat.not_lt_zero _)
  | succ n ih =>
    intro frontier h
    rw [astarFuel]
    cases hs : selectMin cfg frontier with
    | none => rfl
    | some p =>
      obtain ⟨⟨a, d⟩, rest⟩ := p
      show (if cfg.maxDepth < d then astarFuel cfg n rest
        else match astarFuel cfg n (rest ++ (cfg.expand a).map (fun c => (c, d + 1))) with
          | none => none
          | some res => some (if cfg.isGoal a then a :: res else res)).isSome = true
      have hsum : frontierMeasure cfg frontier
          = treeCount cfg.expand (cfg.maxDepth + 1 - d) a + frontierMeasure cfg rest :=
        selectMin_sum cfg
          (fun e => treeCount cfg.expand (cfg.maxDepth + 1 - e.2) e.1)
          frontier (a, d) rest hs
      by_cases hd : cfg.maxDepth < d
      · rw [if_pos hd]
        apply ih
        have hpos := treeCount_pos cfg.expand (cfg.maxDepth + 1 - d) a
        omega
      · rw [if_neg hd]
        have hb : cfg.maxDepth + 1 - d = (cfg.maxDepth - d) + 1 := by omega
        have htc : treeCount cfg.expand (cfg.maxDepth + 1 - d) a
            = 1 + ((cfg.expand a).map (treeCount cfg.expand (cfg.maxDepth - d))).sum := by
          rw [hb, treeCount]
        have hnew : frontierMeasure cfg
              (rest ++ (cfg.expand a).map (fun c => (c, d + 1)))
            = frontierMeasure cfg rest
              + ((cfg.expand a).map (treeCount cfg.expand (cfg.maxDepth - d))).sum := by
          unfold frontierMeasure
          rw [List.map_append, List.sum_append, List.map_map]
          have hdd : cfg.maxDepth + 1 - (d + 1) = cfg.maxDepth - d := by omega
          have hfun : ((fun e : α × Nat =>
                treeCount cfg.expand (cfg.maxDepth + 1 - e.2) e.1)
                ∘ (fun c => (c, d + 1)))
              = treeCount cfg.expand (cfg.maxDepth - d) := by
            funext c
            show treeCount cfg.expand (cfg.maxDepth + 1 - (d + 1)) c = _
            rw [hdd]
          rw [hfun]
        have hlt : frontierMeasure cfg
            (rest ++ (cfg.expand a).map (fun c => (c, d + 1))) < n := by
          omega
        have hok := ih _ hlt
        cases hres : astarFuel cfg n
            (rest ++ (cfg.expand a).map (fun c => (c, d + 1))) with
        | none => rw [hres] at hok; exact Bool.noConfusion hok
        | some res => simp only [hres]; rfl

/-- C5: bounded A* (modelled from the spec, with finite branching given by
`expand` and the depth-discard rule) terminates — some finite fuel completes
the run from the root — for every search graph, in particular for every DSL
admitting an infinite production chain and with no goal-satisfying node. -/
theorem C5_bounded_astar_terminates {α : Type} (cfg : AStarConfig α)
    (root : α)
    (_hinf : ∃ f : Nat → α, ∀ n, f (n + 1) ∈ cfg.expand (f n)) :
    ∃ fuel, (astarFuel cfg fuel [(root, 0)]).isSome = true :=
  ⟨frontierMeasure cfg [(root, 0)] + 1,
    astarFuel_total cfg _ _ (Nat.lt_succ_self _)⟩

/-- Witness for C5: the one-state graph whose single node expands to itself
(an infinite production chain with no depth bound of its own) with
`max_depth = 1` and a never-satisfied goal — the bounded run still finishes. -/
theorem C5_bounded_astar_terminates_witness :
    ∃ fuel,
      (astarFuel ⟨fun _ => [()], fun _ => false, fun _ => 0, 1⟩ fuel
        [(((), 0) : Unit × Nat)]).isSome = true :=
  C5_bounded_astar_terminates ⟨fun _ => [()], fun _ => false, fun _ => 0, 1⟩ ()
    ⟨fun _ => (), fun _ => List.Mem.head _⟩

end NeuroSym
